import Mathlib

/-!
Verification development for the hcourt repository: the court-schedule
polling pipeline (HTML parser, change detector, dedup key, polling worker)
and the captcha-automated document retrieval subsystem (OCR solvers,
download acceptance checks, retry loop).

The TypeScript sources are shallowly embedded: pure functions become Lean
functions, regex captures over free text become explicit extraction
parameters, stateful/async control flow becomes a step relation, and
fallible code returns Except/Option.
-/

namespace Hcourt

/-! ## String helpers (models of the JavaScript string operations used) -/

/-- Model of checking that `sub` is a prefix of `s` at the character level. -/
def startsWithChars : List Char → List Char → Bool
  | [], _ => true
  | _ :: _, [] => false
  | a :: as, b :: bs => a == b && startsWithChars as bs

/-- Model of JavaScript `s.includes(pat)`: `pat` occurs contiguously in `s`. -/
def hasSubstr : List Char → List Char → Bool
  | s, pat =>
    if startsWithChars pat s then true
    else
      match s with
      | [] => false
      | _ :: rest => hasSubstr rest pat

/-- `strIncludes s pat` models `s.includes(pat)` on strings. -/
def strIncludes (s pat : String) : Bool := hasSubstr s.data pat.data

/-- Model of JavaScript `s.slice(0, n)` (character level). -/
def strTake (s : String) (n : Nat) : String := ⟨s.data.take n⟩

/-- Model of JavaScript `s.toLowerCase()` (character level). -/
def lowerStr (s : String) : String := ⟨s.data.map Char.toLower⟩

/-- Model of `text.replace(/\D/g, '')`: keep only decimal digits. -/
def digitsOf (s : String) : String := ⟨s.data.filter (fun c => c.isDigit)⟩

/-- Model of JavaScript `s.padStart(6, '0')`: pad with leading zeros up to
length 6; a string already of length 6 or more is returned unchanged. -/
def padStart6 (s : String) : String := ⟨List.replicate (6 - s.data.length) '0' ++ s.data⟩

/-- All characters of `s` are decimal digits. -/
def allDigits (s : String) : Bool := s.data.all (fun c => c.isDigit)

/-- Decimal digit character, as used when a number is interpolated into a
JavaScript template string. -/
def dChar : Nat → Char
  | 0 => '0' | 1 => '1' | 2 => '2' | 3 => '3' | 4 => '4'
  | 5 => '5' | 6 => '6' | 7 => '7' | 8 => '8' | 9 => '9'
  | _ => '*'

/-- Fuel-driven most-significant-first decimal digit list of `n`. -/
def natDecAux : Nat → Nat → List Char
  | 0, _ => []
  | fuel + 1, n => if n < 10 then [dChar n] else natDecAux fuel (n / 10) ++ [dChar (n % 10)]

/-- Decimal rendering of a natural number, modelling how JavaScript
interpolates an integer into a template string. -/
def natDecimal (n : Nat) : String := ⟨natDecAux (n + 1) n⟩

/-- Numeric value of a digit character. -/
def charVal (c : Char) : Nat := c.toNat - 48

/-- Value of a most-significant-first decimal digit list. -/
def listVal (l : List Char) : Nat := l.foldl (fun a c => a * 10 + charVal c) 0

/-- Model of JavaScript `s.trim()`: drop whitespace at both ends. -/
def strTrim (s : String) : String :=
  ⟨((s.data.dropWhile Char.isWhitespace).reverse.dropWhile Char.isWhitespace).reverse⟩

/-! ## Data model: ParsedCourtCase (src/lib/parser.ts) -/

/-- `ParsedCourtCase['caseDetails']` from src/lib/parser.ts. -/
structure CaseDetails where
  caseNumber : String
  title : String
  petitionerCounsels : List String
  respondentCounsels : List String
deriving DecidableEq, Repr

/-- `ParsedCourtCase` from src/lib/parser.ts (the stored `CourtCase` has the
same shape; absent optional fields are `none`). -/
structure ParsedCourtCase where
  courtNo : String
  serialNo : Option String
  list : Option String
  progress : Option String
  caseDetails : Option CaseDetails
  isInSession : Bool
deriving DecidableEq, Repr

/-! ## HtmlRecordParser (src/lib/parser.ts, parseCourtSchedule)

The cheerio DOM is abstracted to the structure the parser walks: a document
is a list of tables, a table a list of rows, a row the list of its `td`
cell texts.  The four anchored regex captures over the case-details text
(`Case Details - NUMBER`, `Title : ...`, the petitioner counsel capture and
the respondent counsel capture) are pure string-to-string functions; they
are kept as explicit extraction parameters, while all control flow, the
`NOT in session` marker test, the null/empty handling, the counsel
splitting and the `N/A` fallbacks are modelled concretely from the source. -/

/-- One `tr` row: the texts of its `td` cells. -/
abbrev HtmlRow := List String

/-- One `table`: its `tr` rows (the first row is the header). -/
structure HtmlTable where
  rows : List HtmlRow
deriving Repr

/-- A loaded HTML document: its tables, in document order. -/
structure HtmlDoc where
  tables : List HtmlTable
deriving Repr

/-- The four regex captures used on the case-details cell text.  Each
returns the (raw) first capture group, or `none` when the pattern does not
match, exactly like `String.prototype.match`. -/
structure Extractors where
  caseNumberCapture : String → Option String
  titleCapture : String → Option String
  petitionerCapture : String → Option String
  respondentCapture : String → Option String

/-- Text of cell `i` of a row: a missing cell reads as the empty string
(cheerio `$(undefined).text()` is `''`), then `.trim()` is applied. -/
def cellText (cells : HtmlRow) (i : Nat) : String := strTrim ((cells.getD i ""))

/-- The `NOT in session` marker string (verbatim from the source). -/
def notInSessionMarker : String := "NOT in session"

/-- `caseNumber` variable of parseCourtSchedule: the trimmed capture of the
case-number regex, or the empty string when there is no match. -/
def extractedCaseNumber (ex : Extractors) (txt : String) : String :=
  ((ex.caseNumberCapture txt).map strTrim).getD ""

/-- Collapse every run of whitespace to one space, modelling
`.replace(/\s+/g, ' ')`. -/
def collapseWs (s : String) : String :=
  ⟨(s.data.foldr
      (fun c acc =>
        if c.isWhitespace then
          match acc with
          | ' ' :: _ => acc
          | _ => ' ' :: acc
        else c :: acc) [])⟩

/-- `title` variable of parseCourtSchedule: whitespace-collapsed, trimmed
capture of the title regex, or the empty string when there is no match.
(The source also runs `.replace(/Vs\./g, 'Vs.')`, which replaces the text
`Vs.` by itself and is the identity.) -/
def extractedTitle (ex : Extractors) (txt : String) : String :=
  ((ex.titleCapture txt).map (fun t => strTrim (collapseWs t))).getD ""

/-- `counselsText.split(',').map(c => c.trim()).filter(c => c)` applied to
a trimmed counsel capture. -/
def splitCounsels (capture : String) : List String :=
  (((strTrim capture).splitOn ",").map strTrim).filter (fun c => c ≠ "")

/-- Counsel list from an optional capture (no match contributes nothing). -/
def counselsFrom (capture : Option String) : List String :=
  match capture with
  | none => []
  | some t => splitCounsels t

/-- The `isInSession` test of the row loop: absence of the marker in both
the serial cell and the case-details cell. -/
def rowInSession (cells : HtmlRow) : Bool :=
  !(strIncludes (cellText cells 1) notInSessionMarker) &&
    !(strIncludes (cellText cells 4) notInSessionMarker)

/-- `text || null` assignment guarded by the session flag: the optional
fields are only assigned when in session, and an empty text reads as
`null` (JS falsy), never as the empty string. -/
def optOfText (inSession : Bool) (t : String) : Option String :=
  if inSession then (if t = "" then none else some t) else none

/-- The `caseDetails` local of the row loop (src/lib/parser.ts lines
49–104): built only when in session, when the case-details cell is
non-empty, and when at least a case number or a title was extracted;
otherwise it stays `null`. -/
def rowCaseDetails (ex : Extractors) (cells : HtmlRow) : Option CaseDetails :=
  if rowInSession cells then
    if cellText cells 4 ≠ "" then
      if extractedCaseNumber ex (cellText cells 4) ≠ "" ∨
          extractedTitle ex (cellText cells 4) ≠ "" then
        some
          { caseNumber :=
              if extractedCaseNumber ex (cellText cells 4) = "" then "N/A"
              else extractedCaseNumber ex (cellText cells 4)
            title :=
              if extractedTitle ex (cellText cells 4) = "" then "N/A"
              else extractedTitle ex (cellText cells 4)
            petitionerCounsels :=
              (counselsFrom (ex.petitionerCapture (cellText cells 4))).filter
                (fun c => c ≠ "")
            respondentCounsels :=
              (counselsFrom (ex.respondentCapture (cellText cells 4))).filter
                (fun c => c ≠ "") }
      else none
    else none
  else none

/-- One iteration of the row loop of `parseCourtSchedule`
(src/lib/parser.ts lines 30–115): `none` when the row has no cells
(the `if (cells.length === 0) return;` early exit). -/
def parseRow (ex : Extractors) (cells : HtmlRow) : Option ParsedCourtCase :=
  if cells.length = 0 then none
  else
    some
      { courtNo := cellText cells 0
        serialNo := optOfText (rowInSession cells) (cellText cells 1)
        list := optOfText (rowInSession cells) (cellText cells 2)
        progress := optOfText (rowInSession cells) (cellText cells 3)
        caseDetails := rowCaseDetails ex cells
        isInSession := rowInSession cells }

/-- `parseCourtSchedule` (src/lib/parser.ts lines 22–118): take the first
table, skip the header row, and push one record per non-empty data row. -/
def parseCourtSchedule (ex : Extractors) (doc : HtmlDoc) : List ParsedCourtCase :=
  match doc.tables with
  | [] => []
  | t :: _ => (t.rows.drop 1).filterMap (parseRow ex)

/-! ## ChangeDetector (src/lib/changeDetector.ts, detectChanges)

`detectChanges` iterates over the new records first (emitting `added`,
`status_changed` or `updated` events) and then over the old records
(emitting `removed` events), pushing at most one event per visited record.
The JS `Map` built with `forEach`/`set` keeps the last record per court
number, which `lookupLast` models.  Equality of `caseDetails` via
`JSON.stringify` is modelled as structural equality.  The shared `new
Date()` timestamp of one call is a `Nat` parameter. -/

/-- `changeType` of a `ChangeRecord` (src/types/court). -/
inductive ChangeType where
  | added
  | updated
  | removed
  | status_changed
deriving DecidableEq, Repr

/-- `ChangeRecord` (src/types/court): one detected difference. -/
structure ChangeRecord where
  timestamp : Nat
  courtNo : String
  changeType : ChangeType
  oldValue : Option ParsedCourtCase
  newValue : Option ParsedCourtCase
  description : String
deriving DecidableEq, Repr

/-- Lookup in a JS `Map` built by `forEach(c => map.set(c.courtNo, c))`:
the last record with the given court number wins. -/
def lookupLast (l : List ParsedCourtCase) (k : String) : Option ParsedCourtCase :=
  l.foldl (fun acc c => if c.courtNo = k then some c else acc) none

/-- Rendering of a session flag inside a status-change description. -/
def sessionWord (b : Bool) : String := if b then "in session" else "not in session"

/-- The `added` event pushed for a new court number. -/
def addedRecord (ts : Nat) (nc : ParsedCourtCase) : ChangeRecord :=
  { timestamp := ts
    courtNo := nc.courtNo
    changeType := .added
    oldValue := none
    newValue := some nc
    description := "New case added to Court " ++ nc.courtNo }

/-- The `status_changed` event pushed when the session flag flips. -/
def statusChangedRecord (ts : Nat) (oc nc : ParsedCourtCase) : ChangeRecord :=
  { timestamp := ts
    courtNo := nc.courtNo
    changeType := .status_changed
    oldValue := some oc
    newValue := some nc
    description :=
      "Court " ++ nc.courtNo ++ " session status changed from " ++
        sessionWord oc.isInSession ++ " to " ++ sessionWord nc.isInSession }

/-- The `updated` event pushed when an in-session record changes content. -/
def updatedRecord (ts : Nat) (oc nc : ParsedCourtCase) : ChangeRecord :=
  { timestamp := ts
    courtNo := nc.courtNo
    changeType := .updated
    oldValue := some oc
    newValue := some nc
    description := "Case details updated in Court " ++ nc.courtNo }

/-- The `removed` event pushed for a vanished court number (no `newValue`
field is set in the source). -/
def removedRecord (ts : Nat) (oc : ParsedCourtCase) : ChangeRecord :=
  { timestamp := ts
    courtNo := oc.courtNo
    changeType := .removed
    oldValue := some oc
    newValue := none
    description := "Case removed from Court " ++ oc.courtNo }

/-- The `hasChanged` content test of `detectChanges` (serial, list,
progress, or structurally different case details). -/
def hasChanged (oc nc : ParsedCourtCase) : Bool :=
  oc.serialNo ≠ nc.serialNo || oc.list ≠ nc.list || oc.progress ≠ nc.progress ||
    oc.caseDetails ≠ nc.caseDetails

/-- Event pushed (or not) for one record of the new list
(src/lib/changeDetector.ts lines 28–71). -/
def newCourtEvent (ts : Nat) (oldCourts : List ParsedCourtCase) (nc : ParsedCourtCase) :
    Option ChangeRecord :=
  match lookupLast oldCourts nc.courtNo with
  | none => some (addedRecord ts nc)
  | some oc =>
    if oc.isInSession ≠ nc.isInSession then some (statusChangedRecord ts oc nc)
    else if oc.isInSession && nc.isInSession then
      if hasChanged oc nc then some (updatedRecord ts oc nc) else none
    else none

/-- Event pushed (or not) for one record of the old list
(src/lib/changeDetector.ts lines 74–84). -/
def removedCourtEvent (ts : Nat) (newCourts : List ParsedCourtCase) (oc : ParsedCourtCase) :
    Option ChangeRecord :=
  if (lookupLast newCourts oc.courtNo).isSome then none else some (removedRecord ts oc)

/-- `detectChanges` (src/lib/changeDetector.ts lines 9–87): events for the
new list in order, then removal events for the old list in order. -/
def detectChanges (ts : Nat) (oldCourts newCourts : List ParsedCourtCase) :
    List ChangeRecord :=
  newCourts.filterMap (newCourtEvent ts oldCourts) ++
    oldCourts.filterMap (removedCourtEvent ts newCourts)

/-! ## DedupFilter key (src/unnamed/part_012, generateChangeKey) -/

/-- The `caseNumber || 'none'` rendering: a missing or empty (JS-falsy)
case number renders as the literal `none`. -/
def renderCaseNumber : Option String → String
  | none => "none"
  | some s => if s = "" then "none" else s

/-- `generateChangeKey` (src/unnamed/part_012 lines 30–38) with an explicit
timestamp in epoch milliseconds: the colon-joined court number, change
type, rendered case number and fixed 60000 ms bucket index. -/
def generateChangeKey (courtNo changeKind : String) (caseNumber : Option String)
    (timestampMs : Nat) : String :=
  courtNo ++ ":" ++ changeKind ++ ":" ++ renderCaseNumber caseNumber ++ ":" ++
    natDecimal (timestampMs / 60000)

/-! ## PollingWorker single-flight guard (src/unnamed/part_010, pollSchedule)

`pollSchedule` is guarded by a module-level `isRunning` flag: a tick that
fires while the flag is set returns immediately (no fetch, no detection,
no persistence, and the tick is not queued); otherwise the flag is set,
the poll body runs across its await points, and a `finally` clears the
flag whether the body succeeded or threw.  The async control flow is
embedded as a step relation: the state is the `isRunning` flag, a `tick`
event models a timer fire, and a `finish ok` event models the in-flight
poll body reaching its `finally` block with success (`ok = true`) or an
error (`ok = false`). -/

/-- Events delivered to the polling worker. -/
inductive WorkerEvent where
  | tick
  | finish (ok : Bool)
deriving DecidableEq, Repr

/-- Observable action of one step: `startPoll` begins the fetch → parse →
detect → persist body; `skipTick` is the guarded early return that does
none of that; `releaseFlag ok` is the `finally` clearing `isRunning`. -/
inductive WorkerAct where
  | startPoll
  | skipTick
  | releaseFlag (ok : Bool)
deriving DecidableEq, Repr

/-- One step of the polling worker (src/unnamed/part_010 lines 19–155):
state is the `isRunning` flag. -/
def workerStep : Bool → WorkerEvent → Bool × WorkerAct
  | running, .tick => if running then (running, .skipTick) else (true, .startPoll)
  | _, .finish ok => (false, .releaseFlag ok)

/-- Run the worker from a state over a list of events, collecting the
final state and the actions in order. -/
def workerRun (s : Bool) : List WorkerEvent → Bool × List WorkerAct
  | [] => (s, [])
  | e :: evs =>
    let st := workerStep s e
    let rest := workerRun st.1 evs
    (rest.1, st.2 :: rest.2)

/-- Is this action the start of a poll body? -/
def isStartAct : WorkerAct → Bool
  | .startPoll => true
  | _ => false

/-- Is this action a poll completion (the `finally` releasing the flag)? -/
def isReleaseAct : WorkerAct → Bool
  | .releaseFlag _ => true
  | _ => false

/-- Number of polls started in an action list. -/
def startCount (acts : List WorkerAct) : Nat := acts.countP isStartAct

/-- Number of poll completions (flag releases) in an action list. -/
def releaseCount (acts : List WorkerAct) : Nat := acts.countP isReleaseAct

/-! ## Document retrieval acceptance (src/lib/elegalix.ts and
src/backend/lib/orders.ts)

An upstream HTTP response is modelled by its status, its optional
`content-type` header and its body, read as text (the byte-level
`buf.slice(0, n).toString('utf8')` of the source is modelled at the
character level). -/

/-- An upstream HTTP response as the download code observes it. -/
structure HttpResponse where
  status : Nat
  contentTypeHeader : Option String
  body : String
deriving Repr

/-- `res.ok` from fetch: status in the 200–299 range. -/
def respOk (r : HttpResponse) : Bool := 200 ≤ r.status && r.status < 300

/-- Result checking of `downloadJudgmentWithCaptcha`
(src/lib/elegalix.ts lines 135–148): rate-limit and non-2xx failures,
then the HTML rejection test on content type and body prefix; an accepted
response returns the body and its content type. -/
def elegalixDownloadCheck (r : HttpResponse) : Except String (String × String) :=
  if r.status = 429 then
    .error "Upstream rate-limited. Please wait a few seconds and try again."
  else if !(respOk r) then
    .error ("Upstream download failed (" ++ natDecimal r.status ++ ")")
  else if strIncludes (r.contentTypeHeader.getD "application/octet-stream") "text/html" ||
      strIncludes (lowerStr (strTake r.body 15)) "<html" then
    .error "Invalid security code (captcha). Please retry."
  else .ok (r.body, r.contentTypeHeader.getD "application/octet-stream")

/-- Per-attempt acceptance test of `downloadOrderJudgment`
(src/backend/lib/orders.ts lines 450–458): the attempt is accepted only
when the response is 2xx, the lowercased content type contains `pdf`, the
body is at least 8 bytes and it starts with the `%PDF` magic. -/
def ordersAccepts (r : HttpResponse) : Bool :=
  respOk r &&
    strIncludes (lowerStr (r.contentTypeHeader.getD "")) "pdf" &&
    decide (8 ≤ r.body.data.length) &&
    strTake r.body 4 == "%PDF"

/-- The `/^\d{6}$/` guard of `downloadJudgmentWithCaptcha`. -/
def isSixDigitCode (s : String) : Bool := s.data.length == 6 && allDigits s

/-! ## Captcha solvers

The OCR engine and the image preprocessing are the abstraction boundary:
a solver is modelled as a function of the raw OCR text(s) produced for
the image, which the source then reduces to digits, scores, pads and
ranks.  `none` in an outcome position models the corresponding OCR (or
preprocessing) call throwing. -/

/-- `solveCaptcha` of src/lib/elegalix.ts (lines 15–39) as a function of
the raw OCR text: keep the digits; return the first six when at least six
were read, and throw otherwise. -/
def solveCaptchaCookie (ocrText : String) : Except String String :=
  let digits := digitsOf ocrText
  if 6 ≤ digits.data.length then .ok (strTake digits 6)
  else .error ("OCR failed: got \"" ++ digits ++ "\" (expected 6 digits)")

/-- `bestLength` companion of the running `bestResult`. -/
def bestLen : Option String → Nat
  | none => 0
  | some s => s.data.length

/-- One OCR loop of the browser-strategy `solveCaptcha`
(src/unnamed/part_011): scan outcomes in order; return (inr) as soon as a
six-digit read appears, else keep the longest digit string seen (inl). -/
def scanDigits : List (Option String) → Option String → (Option String) ⊕ String
  | [], best => .inl best
  | none :: rest, best => scanDigits rest best
  | some t :: rest, best =>
    let ds := digitsOf t
    if ds.data.length = 6 then .inr ds
    else if bestLen best < ds.data.length then scanDigits rest (some ds)
    else scanDigits rest best

/-- `solveCaptcha` of src/unnamed/part_011 (lines 17–214) as a function of
its OCR outcomes: `firstRun` are the raw texts of the first PSM loop (psm
8, 7, 6), `enhanced` the outcomes of the enhanced-preprocessing loop (psm
8, 7; `none` for the whole block models the preprocessing throwing), and
`finalRetry` the outcome of the last-resort retry.  Return points follow
the source: an exact six-digit read is returned as is; a five-digit best
is prefixed with one zero; a best of length at least four is returned
`padStart(6, '0')`-padded (without truncation); shorter non-empty bests go
through the final retry and are padded and sliced to six; no digits at
all throws.  The solver is split into `scanDigits` (one OCR loop),
`enhancedStep` (the guarded enhanced-preprocessing loop) and `finishBest`
(the padding tail), composed by `solveCaptchaBrowser`. -/
def enhancedStep (enhanced : Option (List (Option String))) :
    Option String → (Option String) ⊕ String
  | some b =>
    if b.data.length < 6 then
      match enhanced with
      | some rs => scanDigits rs (some b)
      | none => .inl (some b)
    else .inl (some b)
  | none => .inl none

/-- The last-resort retry block (lines 168–199 of the source solver): one
more OCR pass whose digits, when at least four, are padded and sliced to
six; otherwise (or when that pass throws, `finalRetry = none`) the current
best is padded and sliced to six. -/
def finalRetryStep (b : String) : Option String → Except String String
  | some t =>
    if 4 ≤ (digitsOf t).data.length then .ok (strTake (padStart6 (digitsOf t)) 6)
    else .ok (strTake (padStart6 b) 6)
  | none => .ok (strTake (padStart6 b) 6)

/-- The tail of the browser-strategy solver once both OCR loops are done:
the five-digit zero-prefix, the unsliced `padStart` return for a best of
length at least four, the final-retry block for shorter bests, and the
failure when no digits were ever read. -/
def finishBest (finalRetry : Option String) : Option String → Except String String
  | some b =>
    if b.data.length = 5 then .ok ("0" ++ b)
    else if 4 ≤ b.data.length then .ok (padStart6 b)
    else finalRetryStep b finalRetry
  | none =>
    .error "OCR failed: could not extract sufficient digits. Best result: \"none\""

def solveCaptchaBrowser (firstRun : List (Option String))
    (enhanced : Option (List (Option String))) (finalRetry : Option String) :
    Except String String :=
  match scanDigits firstRun none with
  | .inr s => .ok s
  | .inl best0 =>
    match enhancedStep enhanced best0 with
    | .inr s => .ok s
    | .inl best => finishBest finalRetry best

/-! ## Ranked candidate solver (src/backend/lib/orders.ts,
getAllahabadCaptchaCandidates)

The function runs tesseract over six preprocessing variants under three
PSM modes each; every run yields a digit string (possibly empty —
`runTesseractDigits` swallows its own errors and returns the digits it
got).  The model takes the list of those OCR outcomes in run order. -/

/-- Add one OCR outcome to the frequency tally, keeping first-insertion
order like a JS `Map` (empty outcomes are skipped). -/
def addTally (acc : List (String × Nat)) (c : String) : List (String × Nat) :=
  if c = "" then acc
  else if acc.any (fun p => p.1 == c) then
    acc.map (fun p => if p.1 == c then (p.1, p.2 + 1) else p)
  else acc ++ [(c, 1)]

/-- `/^\d{4}$/.test(s)`. -/
def isFourDigits (s : String) : Bool := s.data.length == 4 && allDigits s

/-- Strict precedence of the sort comparator: four-digit candidates first,
then by agreement count descending, then by length descending. -/
def candBefore (a b : String × Nat) : Bool :=
  if isFourDigits a.1 ≠ isFourDigits b.1 then isFourDigits a.1
  else if a.2 ≠ b.2 then b.2 < a.2
  else b.1.data.length < a.1.data.length

/-- Stable insertion into a list sorted by `candBefore` (a JS
`Array.prototype.sort` is stable). -/
def insertCand (x : String × Nat) : List (String × Nat) → List (String × Nat)
  | [] => [x]
  | y :: ys => if candBefore x y then x :: y :: ys else y :: insertCand x ys

/-- Stable sort by `candBefore`. -/
def sortCands : List (String × Nat) → List (String × Nat)
  | [] => []
  | x :: xs => insertCand x (sortCands xs)

/-- `getAllahabadCaptchaCandidates` (src/backend/lib/orders.ts lines
235–296) as a function of its OCR outcomes: tally non-empty outcomes,
sort by the comparator, return the candidate strings in rank order. -/
def getAllahabadCaptchaCandidates (outcomes : List String) : List String :=
  (sortCands (outcomes.foldl addTally [])).map (fun p => p.1)

/-! ## Automated retrieval loop (src/lib/elegalix.ts, downloadJudgmentAuto)

Each loop iteration opens a fresh captcha session (`startCaptchaSession`
mints a new session id and a new cookie jar), fetches a fresh challenge,
solves it and submits; the whole attempt is abstracted as `outcomes i`,
the result of the attempt using the `i`-th freshly opened session.  On an
error the loop sleeps `1000 * (attempt + 1)` ms and retries while budget
remains; the error of the final attempt is the one surfaced. -/

/-- The retry loop body: `i` is the current attempt index, `rem` the
number of further attempts allowed after this one. -/
def autoGo (outcomes : Nat → Except String (String × String)) :
    Nat → Nat → Except String (String × String)
  | i, 0 => outcomes i
  | i, rem + 1 =>
    match outcomes i with
    | .ok v => .ok v
    | .error _ => autoGo outcomes (i + 1) rem

/-- Session indexes opened by the loop, in order (one fresh session per
attempt actually performed). -/
def autoSessions (outcomes : Nat → Except String (String × String)) :
    Nat → Nat → List Nat
  | i, 0 => [i]
  | i, rem + 1 =>
    match outcomes i with
    | .ok _ => [i]
    | .error _ => i :: autoSessions outcomes (i + 1) rem

/-- Backoff delays (ms) slept between consecutive attempts. -/
def autoBackoffs (outcomes : Nat → Except String (String × String)) :
    Nat → Nat → List Nat
  | _, 0 => []
  | i, rem + 1 =>
    match outcomes i with
    | .ok _ => []
    | .error _ => 1000 * (i + 1) :: autoBackoffs outcomes (i + 1) rem

/-- `downloadJudgmentAuto` (src/lib/elegalix.ts lines 151–179, default
`maxRetries = 3`): run up to `maxRetries` attempts, each on a fresh
session; surface only the last failure. -/
def downloadJudgmentAuto (outcomes : Nat → Except String (String × String))
    (maxRetries : Nat) : Except String (String × String) :=
  match maxRetries with
  | 0 => .error "Failed to download after multiple attempts"
  | m + 1 => autoGo outcomes 0 m

/-! # Theorems -/

/-! ## Parser (claims about parseCourtSchedule) -/

/-- Extractors whose regexes never match (an unparseable details blob). -/
def noMatchExtractors : Extractors :=
  { caseNumberCapture := fun _ => none
    titleCapture := fun _ => none
    petitionerCapture := fun _ => none
    respondentCapture := fun _ => none }

theorem parseRow_some_shape (ex : Extractors) (cells : HtmlRow) (rec : ParsedCourtCase)
    (h : parseRow ex cells = some rec) :
    rec.serialNo = optOfText (rowInSession cells) (cellText cells 1) ∧
      rec.list = optOfText (rowInSession cells) (cellText cells 2) ∧
      rec.progress = optOfText (rowInSession cells) (cellText cells 3) ∧
      rec.caseDetails = rowCaseDetails ex cells ∧
      rec.isInSession = rowInSession cells := by
  unfold parseRow at h
  split at h
  · exact absurd h (by simp)
  · obtain rfl : _ = rec := Option.some.inj h
    exact ⟨rfl, rfl, rfl, rfl, rfl⟩

/-- C1: for every HTML input in which no schedule table can be located, or
whose first table has no data rows with cells, `parseCourtSchedule` returns
the empty list.  (The embedding is a total function, so no input can make
it fail: the absence of a table or of data rows simply leaves the result
list empty.) -/
theorem parseCourtSchedule_empty_of_no_data (ex : Extractors) (doc : HtmlDoc)
    (h : ∀ t, doc.tables.head? = some t → ∀ r ∈ t.rows.drop 1, r = ([] : HtmlRow)) :
    parseCourtSchedule ex doc = [] := by
  obtain ⟨tables⟩ := doc
  cases tables with
  | nil => rfl
  | cons t rest =>
    have ht := h t rfl
    simp only [parseCourtSchedule]
    rw [List.filterMap_eq_nil_iff]
    intro r hr
    rw [ht r hr]
    rfl

theorem parseCourtSchedule_empty_of_no_data_witness :
    parseCourtSchedule noMatchExtractors ⟨[⟨[["Court", "Serial", "List"]]⟩]⟩ = [] :=
  parseCourtSchedule_empty_of_no_data noMatchExtractors _ (by
    intro t ht r hr
    obtain rfl : _ = t := Option.some.inj ht
    simp at hr)

/-- C2: every record produced by `parseCourtSchedule` satisfies the session
invariant: a record not in session carries `none` for serial, list,
progress and case details; and `caseDetails` is non-`none` only when the
record is in session and its originating row's details text yielded a
non-empty case number or a non-empty title. -/
theorem parseCourtSchedule_session_invariant (ex : Extractors) (doc : HtmlDoc)
    (rec : ParsedCourtCase) (hmem : rec ∈ parseCourtSchedule ex doc) :
    (rec.isInSession = false →
      rec.serialNo = none ∧ rec.list = none ∧ rec.progress = none ∧
        rec.caseDetails = none) ∧
      (∀ cd, rec.caseDetails = some cd → rec.isInSession = true ∧
        ∃ cells, parseRow ex cells = some rec ∧
          (extractedCaseNumber ex (cellText cells 4) ≠ "" ∨
            extractedTitle ex (cellText cells 4) ≠ "")) := by
  obtain ⟨tables⟩ := doc
  cases tables with
  | nil => simp [parseCourtSchedule] at hmem
  | cons t rest =>
    simp only [parseCourtSchedule] at hmem
    obtain ⟨cells, -, hrow⟩ := List.mem_filterMap.mp hmem
    obtain ⟨hs, hl, hp, hcd, hin⟩ := parseRow_some_shape ex cells rec hrow
    constructor
    · intro hfalse
      rw [hin] at hfalse
      rw [hs, hl, hp, hcd, hfalse]
      refine ⟨rfl, rfl, rfl, ?_⟩
      simp [rowCaseDetails, hfalse]
    · intro cd hcdsome
      rw [hcd] at hcdsome
      unfold rowCaseDetails at hcdsome
      by_cases hses : rowInSession cells = true
      · refine ⟨by rw [hin, hses], cells, hrow, ?_⟩
        rw [hses] at hcdsome
        simp only [if_true] at hcdsome
        by_cases hne : cellText cells 4 ≠ ""
        · rw [if_pos hne] at hcdsome
          by_cases hguard : extractedCaseNumber ex (cellText cells 4) ≠ "" ∨
              extractedTitle ex (cellText cells 4) ≠ ""
          · exact hguard
          · rw [if_neg hguard] at hcdsome
            exact absurd hcdsome (by simp)
        · rw [if_neg hne] at hcdsome
          exact absurd hcdsome (by simp)
      · rw [Bool.not_eq_true] at hses
        rw [hses] at hcdsome
        simp at hcdsome

theorem parseCourtSchedule_session_invariant_witness :
    ((⟨"5", none, none, none, none, false⟩ : ParsedCourtCase).serialNo = none ∧
        (⟨"5", none, none, none, none, false⟩ : ParsedCourtCase).list = none ∧
        (⟨"5", none, none, none, none, false⟩ : ParsedCourtCase).progress = none ∧
        (⟨"5", none, none, none, none, false⟩ : ParsedCourtCase).caseDetails = none) :=
  (parseCourtSchedule_session_invariant noMatchExtractors
      ⟨[⟨[["Court", "Serial"], ["5", "Court is NOT in session", "", "", ""]]⟩]⟩
      ⟨"5", none, none, none, none, false⟩ (by decide)).1 rfl

/-! ## ChangeDetector (claims about detectChanges) -/

theorem newCourtEvent_courtNo (ts : Nat) (oldCourts : List ParsedCourtCase)
    (nc : ParsedCourtCase) (e : ChangeRecord)
    (h : newCourtEvent ts oldCourts nc = some e) : e.courtNo = nc.courtNo := by
  unfold newCourtEvent at h
  split at h
  · obtain rfl : _ = e := Option.some.inj h
    rfl
  · split at h
    · obtain rfl : _ = e := Option.some.inj h
      rfl
    · split at h
      · split at h
        · obtain rfl : _ = e := Option.some.inj h
          rfl
        · exact absurd h (by simp)
      · exact absurd h (by simp)

theorem removedCourtEvent_spec (ts : Nat) (newCourts : List ParsedCourtCase)
    (oc : ParsedCourtCase) (e : ChangeRecord)
    (h : removedCourtEvent ts newCourts oc = some e) :
    e.courtNo = oc.courtNo ∧ lookupLast newCourts oc.courtNo = none := by
  unfold removedCourtEvent at h
  split at h
  · exact absurd h (by simp)
  · obtain rfl : _ = e := Option.some.inj h
    rename_i hns
    exact ⟨rfl, Option.not_isSome_iff_eq_none.mp (by simpa using hns)⟩

theorem foldl_lookup_from_some (k : String) :
    ∀ (l : List ParsedCourtCase) (x : ParsedCourtCase),
      (l.foldl (fun a c => if c.courtNo = k then some c else a) (some x)).isSome = true := by
  intro l
  induction l with
  | nil => intro x; rfl
  | cons d l ih =>
    intro x
    simp only [List.foldl_cons]
    by_cases hd : d.courtNo = k
    · rw [if_pos hd]; exact ih d
    · rw [if_neg hd]; exact ih x

theorem lookupLast_isSome_of_exists (k : String) :
    ∀ (l : List ParsedCourtCase) (acc : Option ParsedCourtCase),
      (∃ c ∈ l, c.courtNo = k) →
      (l.foldl (fun a c => if c.courtNo = k then some c else a) acc).isSome = true := by
  intro l
  induction l with
  | nil => intro acc h; simp at h
  | cons d l ih =>
    intro acc h
    simp only [List.foldl_cons]
    by_cases hd : d.courtNo = k
    · rw [if_pos hd]
      exact foldl_lookup_from_some k l d
    · rw [if_neg hd]
      apply ih
      obtain ⟨c, hc1, hc2⟩ := h
      rcases List.mem_cons.mp hc1 with rfl | hc1'
      · exact absurd hc2 hd
      · exact ⟨c, hc1', hc2⟩

theorem lookupLast_isSome_of_mem (l : List ParsedCourtCase) (c : ParsedCourtCase)
    (h : c ∈ l) : (lookupLast l c.courtNo).isSome = true :=
  lookupLast_isSome_of_exists c.courtNo l none ⟨c, h, rfl⟩

theorem filter_filterMap_newCourtEvent (ts : Nat) (oldCourts : List ParsedCourtCase)
    (k : String) :
    ∀ l : List ParsedCourtCase,
      (l.filterMap (newCourtEvent ts oldCourts)).filter (fun e => e.courtNo == k) =
        (l.filter (fun c => c.courtNo == k)).filterMap (newCourtEvent ts oldCourts) := by
  intro l
  induction l with
  | nil => rfl
  | cons c l ih =>
    rcases h : newCourtEvent ts oldCourts c with - | e
    · simp only [List.filterMap_cons, h, List.filter_cons]
      by_cases hc : (c.courtNo == k) = true
      · simp only [hc, if_true, List.filterMap_cons, h]
        exact ih
      · simp only [hc, if_false, Bool.false_eq_true]
        exact ih
    · have hcn := newCourtEvent_courtNo ts oldCourts c e h
      simp only [List.filterMap_cons, h, List.filter_cons, hcn]
      by_cases hc : (c.courtNo == k) = true
      · simp only [hc, if_true, List.filterMap_cons, h]
        rw [ih]
      · simp only [hc, if_false, Bool.false_eq_true]
        exact ih

/-- C3 (amended): for a court number that occurs exactly once in the new
list, is present in the old list, and whose session flag differs between
the two sides, `detectChanges` emits exactly one event for that court
number, and it is a `status_changed` event — never an `updated` (or any
other) event, regardless of how much the content changed too. -/
theorem detectChanges_status_dominates (ts : Nat)
    (oldCourts newCourts : List ParsedCourtCase) (nc oc : ParsedCourtCase)
    (hmem : nc ∈ newCourts)
    (huniq : newCourts.countP (fun c => c.courtNo == nc.courtNo) = 1)
    (hold : lookupLast oldCourts nc.courtNo = some oc)
    (hdiff : oc.isInSession ≠ nc.isInSession) :
    ((detectChanges ts oldCourts newCourts).filter
        (fun e => e.courtNo == nc.courtNo)).map (fun e => e.changeType) =
      [ChangeType.status_changed] := by
  unfold detectChanges
  rw [List.filter_append]
  have hremoved :
      (oldCourts.filterMap (removedCourtEvent ts newCourts)).filter
        (fun e => e.courtNo == nc.courtNo) = [] := by
    rw [List.filter_eq_nil_iff]
    intro e he
    obtain ⟨oc', -, hoc'⟩ := List.mem_filterMap.mp he
    obtain ⟨hcn, hnone⟩ := removedCourtEvent_spec ts newCourts oc' e hoc'
    intro habs
    have : oc'.courtNo = nc.courtNo := by
      have := of_decide_eq_true habs
      rwa [hcn] at this
    rw [this] at hnone
    have := lookupLast_isSome_of_mem newCourts nc hmem
    rw [hnone] at this
    exact absurd this (by simp)
  rw [hremoved, List.append_nil, filter_filterMap_newCourtEvent]
  have hfilter : newCourts.filter (fun c => c.courtNo == nc.courtNo) = [nc] := by
    have hlen : (newCourts.filter (fun c => c.courtNo == nc.courtNo)).length = 1 := by
      rw [← List.countP_eq_length_filter]
      exact huniq
    obtain ⟨a, ha⟩ := List.length_eq_one.mp hlen
    have : nc ∈ newCourts.filter (fun c => c.courtNo == nc.courtNo) :=
      List.mem_filter.mpr ⟨hmem, by simp⟩
    rw [ha] at this
    rw [ha, List.eq_of_mem_singleton this]
  rw [hfilter]
  have hev : newCourtEvent ts oldCourts nc = some (statusChangedRecord ts oc nc) := by
    unfold newCourtEvent
    rw [hold]
    simp only [ne_eq, hdiff, not_false_eq_true, if_true]
  simp only [List.filterMap_cons, hev, List.filterMap_nil, List.map_cons, List.map_nil]
  rfl

theorem detectChanges_status_dominates_witness :
    ((detectChanges 7
          [⟨"5", none, none, none, none, false⟩]
          [⟨"5", some "12", some "A", some "Hearing",
              some ⟨"WRIT/123/2024", "X Vs. Y", ["P"], ["R"]⟩, true⟩]).filter
        (fun e => e.courtNo == "5")).map (fun e => e.changeType) =
      [ChangeType.status_changed] :=
  detectChanges_status_dominates 7
    [⟨"5", none, none, none, none, false⟩]
    [⟨"5", some "12", some "A", some "Hearing",
        some ⟨"WRIT/123/2024", "X Vs. Y", ["P"], ["R"]⟩, true⟩]
    ⟨"5", some "12", some "A", some "Hearing",
        some ⟨"WRIT/123/2024", "X Vs. Y", ["P"], ["R"]⟩, true⟩
    ⟨"5", none, none, none, none, false⟩
    (by decide) (by decide) (by decide) (by decide)

/-- C3 (counterexample to the claim as stated): when the same court number
occurs twice in the new list and its session flag differs from the old
side, `detectChanges` emits two `status_changed` events for that court
number in one call, not exactly one. -/
theorem detectChanges_status_duplicate_counterexample :
    ((detectChanges 0
          [⟨"1", none, none, none, none, false⟩]
          [⟨"1", some "s", none, none, none, true⟩,
            ⟨"1", some "s", none, none, none, true⟩]).filter
        (fun e => e.courtNo == "1" && e.changeType == ChangeType.status_changed)).length
      = 2 := by decide

/-- C5: diffing from an empty previous list yields exactly one `added`
event per record of the new list (each with no previous value), and
diffing to an empty next list yields exactly one `removed` event per
record of the previous list (each with no new value); no event of any
other type is produced in either case. -/
theorem detectChanges_empty_sides (ts : Nat) (S : List ParsedCourtCase) :
    detectChanges ts [] S = S.map (addedRecord ts) ∧
      detectChanges ts S [] = S.map (removedRecord ts) ∧
      (∀ c, (addedRecord ts c).changeType = ChangeType.added ∧
        (addedRecord ts c).oldValue = none ∧ (addedRecord ts c).newValue = some c) ∧
      (∀ c, (removedRecord ts c).changeType = ChangeType.removed ∧
        (removedRecord ts c).newValue = none ∧ (removedRecord ts c).oldValue = some c) := by
  refine ⟨?_, ?_, fun c => ⟨rfl, rfl, rfl⟩, fun c => ⟨rfl, rfl, rfl⟩⟩
  · unfold detectChanges
    rw [List.filterMap_nil, List.append_nil]
    induction S with
    | nil => rfl
    | cons c S ih =>
      rw [List.filterMap_cons, List.map_cons]
      have : newCourtEvent ts [] c = some (addedRecord ts c) := rfl
      rw [this, ih]
  · unfold detectChanges
    rw [List.filterMap_nil, List.nil_append]
    induction S with
    | nil => rfl
    | cons c S ih =>
      rw [List.filterMap_cons, List.map_cons]
      have : removedCourtEvent ts [] c = some (removedRecord ts c) := rfl
      rw [this, ih]

/-! ## Dedup key (claims about generateChangeKey) -/

/-- No colon occurs in a string. -/
def colonFree (s : String) : Prop := ':' ∉ s.data

instance instDecidableColonFree (s : String) : Decidable (colonFree s) :=
  inferInstanceAs (Decidable (':' ∉ s.data))

theorem charVal_dChar (d : Nat) (h : d < 10) : charVal (dChar d) = d := by
  interval_cases d <;> rfl

theorem dChar_ne_colon (d : Nat) : dChar d ≠ ':' := by
  unfold dChar
  split <;> decide

theorem natDecAux_ne_colon : ∀ (fuel n : Nat), ':' ∉ natDecAux fuel n := by
  intro fuel
  induction fuel with
  | zero => intro n; simp [natDecAux]
  | succ fuel ih =>
    intro n
    unfold natDecAux
    split
    · intro hmem
      rw [List.mem_singleton] at hmem
      exact dChar_ne_colon n hmem.symm
    · intro hmem
      rcases List.mem_append.mp hmem with h1 | h2
      · exact ih (n / 10) h1
      · rw [List.mem_singleton] at h2
        exact dChar_ne_colon (n % 10) h2.symm

theorem listVal_append_digit (l : List Char) (c : Char) :
    listVal (l ++ [c]) = listVal l * 10 + charVal c := by
  simp [listVal, List.foldl_append]

theorem natDecAux_val : ∀ (fuel n : Nat), n < fuel → listVal (natDecAux fuel n) = n := by
  intro fuel
  induction fuel with
  | zero => intro n hn; omega
  | succ fuel ih =>
    intro n hn
    unfold natDecAux
    split
    · rename_i h10
      simp only [listVal, List.foldl_cons, List.foldl_nil, Nat.zero_mul, Nat.zero_add]
      exact charVal_dChar n h10
    · rename_i h10
      have hdiv : n / 10 < n := Nat.div_lt_self (by omega) (by omega)
      rw [listVal_append_digit, ih (n / 10) (by omega),
        charVal_dChar (n % 10) (Nat.mod_lt n (by omega))]
      omega

theorem natDecimal_inj (m n : Nat) (h : natDecimal m = natDecimal n) : m = n := by
  have hd : natDecAux (m + 1) m = natDecAux (n + 1) n :=
    congrArg String.data h
  have hm := natDecAux_val (m + 1) m (by omega)
  have hn := natDecAux_val (n + 1) n (by omega)
  rw [hd, hn] at hm
  exact hm.symm

theorem natDecimal_colonFree (n : Nat) : colonFree (natDecimal n) :=
  natDecAux_ne_colon (n + 1) n

theorem splitFirstColon :
    ∀ (l₁ l₂ r₁ r₂ : List Char), ':' ∉ l₁ → ':' ∉ l₂ →
      l₁ ++ ':' :: r₁ = l₂ ++ ':' :: r₂ → l₁ = l₂ ∧ r₁ = r₂ := by
  intro l₁
  induction l₁ with
  | nil =>
    intro l₂ r₁ r₂ h1 h2 heq
    cases l₂ with
    | nil =>
      simp only [List.nil_append] at heq
      exact ⟨rfl, (List.cons.injEq _ _ _ _ ▸ heq).2⟩
    | cons b bs =>
      simp only [List.nil_append, List.cons_append, List.cons.injEq] at heq
      exact absurd (List.mem_cons_self b bs) (heq.1 ▸ h2)
  | cons a as ih =>
    intro l₂ r₁ r₂ h1 h2 heq
    cases l₂ with
    | nil =>
      simp only [List.cons_append, List.nil_append, List.cons.injEq] at heq
      exact absurd (List.mem_cons_self a as) (heq.1 ▸ h1)
    | cons b bs =>
      simp only [List.cons_append, List.cons.injEq] at heq
      obtain ⟨rfl, htail⟩ := heq
      have h1' : ':' ∉ as := fun hm => h1 (List.mem_cons_of_mem a hm)
      have h2' : ':' ∉ bs := fun hm => h2 (List.mem_cons_of_mem a hm)
      obtain ⟨heq1, heq2⟩ := ih bs r₁ r₂ h1' h2' htail
      exact ⟨by rw [heq1], heq2⟩

theorem generateChangeKey_data (c t : String) (n : Option String) (ms : Nat) :
    (generateChangeKey c t n ms).data =
      c.data ++ ':' :: (t.data ++ ':' :: ((renderCaseNumber n).data ++ ':' ::
        (natDecimal (ms / 60000)).data)) := by
  have hcolon : (":" : String).data = [':'] := rfl
  simp [generateChangeKey, String.data_append, hcolon]

/-- C4 (amended): two change keys are equal exactly when the court number,
the change type, the rendered case number (`none` standing for a missing
or empty one) and the fixed 60000 ms bucket index agree — provided the
court number, the change type and the rendered case number contain no
colon (the raw key is a colon-joined string, so a colon inside a field
could make distinct field tuples collide).  Moreover, unconditionally:
events of identical fields more than 60 seconds apart never share a key,
and events of identical fields in the same bucket always do. -/
theorem generateChangeKey_spec (c t c' t' : String) (n n' : Option String)
    (ms ms' : Nat) (h1 : colonFree c) (h2 : colonFree t)
    (h3 : colonFree (renderCaseNumber n)) (h4 : colonFree c') (h5 : colonFree t')
    (h6 : colonFree (renderCaseNumber n')) :
    (generateChangeKey c t n ms = generateChangeKey c' t' n' ms' ↔
      (c = c' ∧ t = t' ∧ renderCaseNumber n = renderCaseNumber n' ∧
        ms / 60000 = ms' / 60000)) ∧
      (∀ (c₀ t₀ : String) (n₀ : Option String) (a b : Nat), a + 60000 < b →
        generateChangeKey c₀ t₀ n₀ a ≠ generateChangeKey c₀ t₀ n₀ b) ∧
      (∀ (c₀ t₀ : String) (n₀ : Option String) (a b : Nat), a / 60000 = b / 60000 →
        generateChangeKey c₀ t₀ n₀ a = generateChangeKey c₀ t₀ n₀ b) := by
  refine ⟨⟨?_, ?_⟩, ?_, ?_⟩
  · intro heq
    have hdata := congrArg String.data heq
    rw [generateChangeKey_data, generateChangeKey_data] at hdata
    obtain ⟨hc, hdata⟩ := splitFirstColon _ _ _ _ h1 h4 hdata
    obtain ⟨ht, hdata⟩ := splitFirstColon _ _ _ _ h2 h5 hdata
    obtain ⟨hn, hdata⟩ := splitFirstColon _ _ _ _ h3 h6 hdata
    refine ⟨String.ext hc, String.ext ht, String.ext hn, ?_⟩
    exact natDecimal_inj _ _ (String.ext hdata)
  · rintro ⟨rfl, rfl, hn, hb⟩
    simp [generateChangeKey, hn, hb]
  · intro c₀ t₀ n₀ a b hab heq
    have hdata := congrArg String.data heq
    rw [generateChangeKey_data, generateChangeKey_data] at hdata
    have h₀ : colonFree c₀ ∨ ¬ colonFree c₀ := em _
    -- cancel the identical prefix at the list level
    have hcancel : (natDecimal (a / 60000)).data = (natDecimal (b / 60000)).data := by
      have := List.append_cancel_left hdata
      have := List.tail_eq_of_cons_eq this
      have := List.append_cancel_left this
      have := List.tail_eq_of_cons_eq this
      have := List.append_cancel_left this
      exact List.tail_eq_of_cons_eq this
    have hbuckets : a / 60000 = b / 60000 :=
      natDecimal_inj _ _ (String.ext hcancel)
    omega
  · intro c₀ t₀ n₀ a b hab
    simp [generateChangeKey, hab]

theorem generateChangeKey_spec_witness :
    generateChangeKey "5" "status_changed" (some "WRIT/123/2024") 59000 =
        generateChangeKey "5" "status_changed" (some "WRIT/123/2024") 1000 ∧
      generateChangeKey "5" "status_changed" (some "WRIT/123/2024") 0 ≠
        generateChangeKey "5" "status_changed" (some "WRIT/123/2024") 61000 :=
  ⟨(generateChangeKey_spec "5" "status_changed" "5" "status_changed"
      (some "WRIT/123/2024") (some "WRIT/123/2024") 59000 1000 (by decide) (by decide)
      (by decide) (by decide) (by decide) (by decide)).2.2 "5" "status_changed"
      (some "WRIT/123/2024") 59000 1000 (by decide),
    (generateChangeKey_spec "5" "status_changed" "5" "status_changed"
      (some "WRIT/123/2024") (some "WRIT/123/2024") 0 61000 (by decide) (by decide)
      (by decide) (by decide) (by decide) (by decide)).2.1 "5" "status_changed"
      (some "WRIT/123/2024") 0 61000 (by decide)⟩

/-- C4 (counterexample to the claim as stated): an event whose case number
is the literal string `none` and an event with no case number at all are
assigned the same key (the `caseNumber || 'none'` rendering collides), so
equal keys do not imply agreement on the caseNumber-if-any component. -/
theorem generateChangeKey_counterexample :
    generateChangeKey "1" "added" (some "none") 0 =
        generateChangeKey "1" "added" none 0 ∧
      (some "none" : Option String) ≠ none := by
  exact ⟨by decide, by decide⟩

/-! ## PollingWorker (single-flight claim) -/

theorem workerRun_start_le :
    ∀ (evs : List WorkerEvent) (s : Bool),
      startCount (workerRun s evs).2 + (cond s 1 0) ≤
        releaseCount (workerRun s evs).2 + 1 := by
  intro evs
  induction evs with
  | nil =>
    intro s
    cases s <;> simp [workerRun, startCount, releaseCount]
  | cons e evs ih =>
    intro s
    cases e with
    | tick =>
      cases s with
      | false =>
        have h := ih true
        show startCount (WorkerAct.startPoll :: (workerRun true evs).2) + 0 ≤
          releaseCount (WorkerAct.startPoll :: (workerRun true evs).2) + 1
        simp only [startCount, releaseCount, List.countP_cons, isStartAct,
          isReleaseAct, Bool.cond_true, Bool.false_eq_true, if_true, if_false,
          eq_self_iff_true] at h ⊢
        omega
      | true =>
        have h := ih true
        show startCount (WorkerAct.skipTick :: (workerRun true evs).2) + 1 ≤
          releaseCount (WorkerAct.skipTick :: (workerRun true evs).2) + 1
        simp only [startCount, releaseCount, List.countP_cons, isStartAct,
          isReleaseAct, Bool.cond_true, Bool.false_eq_true, if_true, if_false,
          eq_self_iff_true] at h ⊢
        omega
    | finish ok =>
      have h := ih false
      cases s with
      | false =>
        show startCount (WorkerAct.releaseFlag ok :: (workerRun false evs).2) + 0 ≤
          releaseCount (WorkerAct.releaseFlag ok :: (workerRun false evs).2) + 1
        simp only [startCount, releaseCount, List.countP_cons, isStartAct,
          isReleaseAct, Bool.cond_false, Bool.false_eq_true, if_true, if_false,
          eq_self_iff_true] at h ⊢
        omega
      | true =>
        show startCount (WorkerAct.releaseFlag ok :: (workerRun false evs).2) + 1 ≤
          releaseCount (WorkerAct.releaseFlag ok :: (workerRun false evs).2) + 1
        simp only [startCount, releaseCount, List.countP_cons, isStartAct,
          isReleaseAct, Bool.cond_false, Bool.false_eq_true, if_true, if_false,
          eq_self_iff_true] at h ⊢
        omega

/-- C6: the polling worker is single-flight.  A timer tick that fires
while a poll is running produces only the `skipTick` action (no poll body
starts: no fetch, no detection, no persistence) and leaves the state
unchanged (the tick is not queued); a finishing poll always clears the
running flag, whether it succeeded or failed; and along any event trace
from the idle state the number of polls started never exceeds the number
of completed (flag-releasing) polls by more than one, so at most one poll
is active at any instant. -/
theorem pollSchedule_single_flight :
    (∀ ok : Bool,
      workerStep true WorkerEvent.tick = (true, WorkerAct.skipTick) ∧
        workerStep false WorkerEvent.tick = (true, WorkerAct.startPoll) ∧
        workerStep true (WorkerEvent.finish ok) = (false, WorkerAct.releaseFlag ok) ∧
        workerStep false (WorkerEvent.finish ok) = (false, WorkerAct.releaseFlag ok)) ∧
      (∀ evs : List WorkerEvent,
        startCount (workerRun false evs).2 ≤ releaseCount (workerRun false evs).2 + 1) := by
  refine ⟨fun ok => ⟨rfl, rfl, rfl, rfl⟩, fun evs => ?_⟩
  have h := workerRun_start_le evs false
  simpa [Bool.cond_false] using h

/-! ## Document retrieval acceptance (C7) -/

/-- C7: a document download is accepted only when the response passes the
binary checks.  For the cookie-strategy judgment download, success implies
the response was 2xx, its content type did not indicate HTML and its body
prefix did not spell `<html`; any response whose content type contains
`text/html` is rejected no matter the status.  For the order-sheet
download, acceptance implies a 2xx status, a content type containing
`pdf`, a body of at least 8 bytes and the `%PDF` magic prefix; a 200
response without the magic prefix (an HTML error page, say) is never
accepted. -/
theorem download_acceptance_checks :
    (∀ (r : HttpResponse) (buf ct : String),
      elegalixDownloadCheck r = Except.ok (buf, ct) →
        respOk r = true ∧
          strIncludes ct "text/html" = false ∧
          strIncludes (lowerStr (strTake r.body 15)) "<html" = false ∧
          buf = r.body ∧ ct = r.contentTypeHeader.getD "application/octet-stream") ∧
      (∀ r : HttpResponse,
        strIncludes (r.contentTypeHeader.getD "application/octet-stream") "text/html"
            = true →
          ∀ v, elegalixDownloadCheck r ≠ Except.ok v) ∧
      (∀ r : HttpResponse, ordersAccepts r = true →
        respOk r = true ∧
          strIncludes (lowerStr (r.contentTypeHeader.getD "")) "pdf" = true ∧
          8 ≤ r.body.data.length ∧ strTake r.body 4 = "%PDF") ∧
      (∀ r : HttpResponse, r.status = 200 → strTake r.body 4 ≠ "%PDF" →
        ordersAccepts r = false) := by
  refine ⟨?_, ?_, ?_, ?_⟩
  · intro r buf ct h
    unfold elegalixDownloadCheck at h
    split at h
    · exact absurd h (by simp)
    · split at h
      · exact absurd h (by simp)
      · rename_i hok
        split at h
        · exact absurd h (by simp)
        · rename_i hhtml
          have hpair := Except.ok.inj h
          rw [Prod.mk.injEq] at hpair
          obtain ⟨hbuf, hct⟩ := hpair
          subst hbuf
          subst hct
          have horB : (strIncludes (r.contentTypeHeader.getD "application/octet-stream")
              "text/html" ||
                strIncludes (lowerStr (strTake r.body 15)) "<html") = false :=
            Bool.eq_false_iff.mpr hhtml
          rw [Bool.or_eq_false_iff] at horB
          exact ⟨by simpa using hok, horB.1, horB.2, rfl, rfl⟩
  · intro r hhtml v h
    unfold elegalixDownloadCheck at h
    split at h
    · exact absurd h (by simp)
    · split at h
      · exact absurd h (by simp)
      · split at h
        · exact absurd h (by simp)
        · rename_i hcond
          exact hcond (by rw [hhtml]; simp)
  · intro r h
    unfold ordersAccepts at h
    simp only [Bool.and_eq_true, decide_eq_true_eq, beq_iff_eq] at h
    exact ⟨h.1.1.1, h.1.1.2, h.1.2, h.2⟩
  · intro r h200 hmagic
    unfold ordersAccepts
    rw [Bool.eq_false_iff]
    intro habs
    simp only [Bool.and_eq_true, decide_eq_true_eq, beq_iff_eq] at habs
    exact hmagic habs.2

theorem download_acceptance_checks_witness :
    ordersAccepts ⟨200, some "text/html; charset=utf-8",
        "<html><body>Captcha code was not match</body></html>"⟩ = false :=
  download_acceptance_checks.2.2.2
    ⟨200, some "text/html; charset=utf-8",
      "<html><body>Captcha code was not match</body></html>"⟩ rfl (by decide)

/-! ## Automated retrieval loop (C8) -/

theorem autoSessions_le (outcomes : Nat → Except String (String × String)) :
    ∀ (rem i : Nat), (autoSessions outcomes i rem).length ≤ rem + 1 := by
  intro rem
  induction rem with
  | zero => intro i; simp [autoSessions]
  | succ rem ih =>
    intro i
    unfold autoSessions
    rcases h : outcomes i with e | v
    · simp only [List.length_cons]
      have := ih (i + 1)
      omega
    · simp

theorem autoSessions_consecutive (outcomes : Nat → Except String (String × String)) :
    ∀ (rem i : Nat),
      autoSessions outcomes i rem = List.range' i (autoSessions outcomes i rem).length := by
  intro rem
  induction rem with
  | zero => intro i; rfl
  | succ rem ih =>
    intro i
    unfold autoSessions
    rcases h : outcomes i with e | v
    · simp only [List.length_cons, List.range'_succ]
      rw [← ih (i + 1)]
    · rfl

theorem autoBackoffs_length (outcomes : Nat → Except String (String × String)) :
    ∀ (rem i : Nat),
      (autoBackoffs outcomes i rem).length + 1 = (autoSessions outcomes i rem).length := by
  intro rem
  induction rem with
  | zero => intro i; rfl
  | succ rem ih =>
    intro i
    unfold autoBackoffs autoSessions
    rcases h : outcomes i with e | v
    · simp only [List.length_cons]
      rw [← ih (i + 1)]
    · rfl

theorem autoBackoffs_pos (outcomes : Nat → Except String (String × String)) :
    ∀ (rem i : Nat), ∀ d ∈ autoBackoffs outcomes i rem, 0 < d := by
  intro rem
  induction rem with
  | zero => intro i d hd; simp [autoBackoffs] at hd
  | succ rem ih =>
    intro i d hd
    unfold autoBackoffs at hd
    rcases h : outcomes i with e | v
    · rw [h] at hd
      rcases List.mem_cons.mp hd with rfl | hd'
      · omega
      · exact ih (i + 1) d hd'
    · rw [h] at hd
      simp at hd

theorem autoGo_first_success (outcomes : Nat → Except String (String × String)) :
    ∀ (rem i k : Nat) (v : String × String), i ≤ k → k ≤ i + rem →
      outcomes k = .ok v → (∀ j, i ≤ j → j < k → ∃ e, outcomes j = .error e) →
      autoGo outcomes i rem = .ok v := by
  intro rem
  induction rem with
  | zero =>
    intro i k v hik hki hok _
    have : k = i := by omega
    subst this
    simp [autoGo, hok]
  | succ rem ih =>
    intro i k v hik hki hok hfail
    unfold autoGo
    by_cases hk : k = i
    · subst hk
      rw [hok]
    · obtain ⟨e, he⟩ := hfail i (Nat.le_refl i) (by omega)
      rw [he]
      exact ih (i + 1) k v (by omega) (by omega) hok
        (fun j hj1 hj2 => hfail j (by omega) hj2)

theorem autoGo_all_fail (outcomes : Nat → Except String (String × String)) :
    ∀ (rem i : Nat), (∀ j, i ≤ j → j ≤ i + rem → ∃ e, outcomes j = .error e) →
      ∃ e, outcomes (i + rem) = .error e ∧ autoGo outcomes i rem = .error e := by
  intro rem
  induction rem with
  | zero =>
    intro i hfail
    obtain ⟨e, he⟩ := hfail i (Nat.le_refl i) (by omega)
    exact ⟨e, by simpa using he, by simpa [autoGo] using he⟩
  | succ rem ih =>
    intro i hfail
    obtain ⟨e, he⟩ := hfail i (Nat.le_refl i) (by omega)
    obtain ⟨e', he', hgo⟩ := ih (i + 1) (fun j hj1 hj2 => hfail j (by omega) (by omega))
    refine ⟨e', by rw [show i + (rem + 1) = i + 1 + rem by omega]; exact he', ?_⟩
    unfold autoGo
    rw [he]
    exact hgo

/-- C8: the automated judgment download retries up to a fixed bound of
`maxRetries` attempts (default 3), opening one fresh captcha session per
attempt actually performed — the sessions used are exactly the distinct
consecutive indexes `0, 1, …` with no session reused — with a positive
backoff slept between any two consecutive attempts; a first success at
attempt `k` (all earlier attempts having failed) is returned as the
overall result with every intermediate rejection swallowed, and when every
attempt in the budget fails, the error surfaced to the caller is exactly
the failure of the final attempt. -/
theorem downloadJudgmentAuto_retry_contract
    (outcomes : Nat → Except String (String × String)) (m : Nat) :
    (autoSessions outcomes 0 m).length ≤ m + 1 ∧
      autoSessions outcomes 0 m = List.range (autoSessions outcomes 0 m).length ∧
      (autoSessions outcomes 0 m).Nodup ∧
      (autoBackoffs outcomes 0 m).length + 1 = (autoSessions outcomes 0 m).length ∧
      (∀ d ∈ autoBackoffs outcomes 0 m, 0 < d) ∧
      (∀ (k : Nat) (v : String × String), k ≤ m → outcomes k = .ok v →
        (∀ j, j < k → ∃ e, outcomes j = .error e) →
        downloadJudgmentAuto outcomes (m + 1) = .ok v) ∧
      ((∀ j, j ≤ m → ∃ e, outcomes j = .error e) →
        ∃ e, outcomes m = .error e ∧ downloadJudgmentAuto outcomes (m + 1) = .error e) := by
  refine ⟨autoSessions_le outcomes m 0, ?_, ?_, autoBackoffs_length outcomes m 0,
    autoBackoffs_pos outcomes m 0, ?_, ?_⟩
  · rw [List.range_eq_range']
    exact autoSessions_consecutive outcomes m 0
  · rw [autoSessions_consecutive outcomes m 0]
    exact List.nodup_range' ..
  · intro k v hk hok hfail
    exact autoGo_first_success outcomes m 0 k v (Nat.zero_le k) (by omega) hok
      (fun j _ hj2 => hfail j hj2)
  · intro hfail
    have h := autoGo_all_fail outcomes m 0 (fun j _ hj2 => hfail j (by omega))
    simpa using h

theorem downloadJudgmentAuto_retry_contract_witness :
    downloadJudgmentAuto
        (fun k => if k < 2 then .error "Invalid security code (captcha). Please retry."
          else .ok ("%PDF-1.4", "application/pdf")) 3 =
      .ok ("%PDF-1.4", "application/pdf") :=
  (downloadJudgmentAuto_retry_contract
      (fun k => if k < 2 then .error "Invalid security code (captcha). Please retry."
        else .ok ("%PDF-1.4", "application/pdf")) 2).2.2.2.2.2.1 2
    ("%PDF-1.4", "application/pdf") (by omega) rfl
    (fun j hj => ⟨"Invalid security code (captcha). Please retry.", by
      have : j < 2 := hj
      simp [this]⟩)

/-! ## Captcha solvers (C9, C10) -/

theorem foldl_addTally_all_empty :
    ∀ (l : List String), (∀ o ∈ l, o = "") → l.foldl addTally [] = [] := by
  intro l
  induction l with
  | nil => intro h; rfl
  | cons o l ih =>
    intro h
    have ho : o = "" := h o (List.mem_cons_self o l)
    subst ho
    show List.foldl addTally (addTally [] "") l = []
    have : addTally [] "" = [] := rfl
    rw [this]
    exact ih (fun x hx => h x (List.mem_cons_of_mem _ hx))

/-- C9 (counterexample to the claim as stated): the cookie-strategy
`solveCaptcha` is not total and does not return a candidate list — on an
image whose OCR reads no digits it throws instead of returning an empty
list. -/
theorem solveCaptchaCookie_throws_counterexample :
    solveCaptchaCookie "" = .error "OCR failed: got \"\" (expected 6 digits)" := rfl

/-- C9 (amended): the ranked-candidate solver
`getAllahabadCaptchaCandidates` does satisfy the list contract — it always
returns an ordered candidate list and returns the empty list when every
OCR run produced no digits — but the single-string `solveCaptcha` of the
cookie strategy instead throws whenever fewer than six digits were read,
and returns the first six digits (one candidate, not a list) otherwise. -/
theorem captchaSolver_contract_amended :
    (∀ outcomes : List String, (∀ o ∈ outcomes, o = "") →
      getAllahabadCaptchaCandidates outcomes = []) ∧
      (∀ t : String, (digitsOf t).data.length < 6 →
        solveCaptchaCookie t =
          .error ("OCR failed: got \"" ++ digitsOf t ++ "\" (expected 6 digits)")) ∧
      (∀ t : String, 6 ≤ (digitsOf t).data.length →
        solveCaptchaCookie t = .ok (strTake (digitsOf t) 6)) := by
  refine ⟨?_, ?_, ?_⟩
  · intro outcomes h
    unfold getAllahabadCaptchaCandidates
    rw [foldl_addTally_all_empty outcomes h]
    rfl
  · intro t h
    unfold solveCaptchaCookie
    rw [if_neg (by omega)]
  · intro t h
    unfold solveCaptchaCookie
    rw [if_pos h]

theorem captchaSolver_contract_amended_witness :
    getAllahabadCaptchaCandidates ["", "", ""] = [] :=
  captchaSolver_contract_amended.1 ["", "", ""] (by decide)

theorem allDigits_digitsOf (t : String) : allDigits (digitsOf t) = true := by
  rw [allDigits, List.all_eq_true]
  intro c hc
  exact (List.mem_filter.mp hc).2

theorem allDigits_padStart6 (s : String) (h : allDigits s = true) :
    allDigits (padStart6 s) = true := by
  rw [allDigits, List.all_eq_true]
  intro c hc
  rcases List.mem_append.mp hc with h1 | h2
  · rw [List.eq_of_mem_replicate h1]
    decide
  · rw [allDigits, List.all_eq_true] at h
    exact h c h2

theorem padStart6_length (s : String) : 6 ≤ (padStart6 s).data.length := by
  show 6 ≤ (List.replicate (6 - s.data.length) '0' ++ s.data).length
  rw [List.length_append, List.length_replicate]
  omega

theorem allDigits_strTake (s : String) (n : Nat) (h : allDigits s = true) :
    allDigits (strTake s n) = true := by
  rw [allDigits, List.all_eq_true] at h ⊢
  intro c hc
  exact h c (List.take_subset n s.data hc)

theorem scanDigits_spec :
    ∀ (rs : List (Option String)) (best : Option String),
      (best = none ∨ ∃ x, best = some x ∧ allDigits x = true ∧ 1 ≤ x.data.length) →
      ((∀ s, scanDigits rs best = .inr s → allDigits s = true ∧ s.data.length = 6) ∧
        (∀ b, scanDigits rs best = .inl b →
          b = none ∨ ∃ x, b = some x ∧ allDigits x = true ∧ 1 ≤ x.data.length)) := by
  intro rs
  induction rs with
  | nil =>
    intro best hbest
    constructor
    · intro s h
      simp [scanDigits] at h
    · intro b h
      simp only [scanDigits, Sum.inl.injEq] at h
      rw [← h]
      exact hbest
  | cons r rest ih =>
    intro best hbest
    cases r with
    | none =>
      constructor
      · intro s h
        exact ((ih best hbest).1 s) (by simpa [scanDigits] using h)
      · intro b h
        exact ((ih best hbest).2 b) (by simpa [scanDigits] using h)
    | some t =>
      have hnew : ∀ cond : (digitsOf t).data.length ≥ 1,
          (some (digitsOf t) = none ∨ ∃ x, some (digitsOf t) = some x ∧
            allDigits x = true ∧ 1 ≤ x.data.length) :=
        fun cond => Or.inr ⟨digitsOf t, rfl, allDigits_digitsOf t, cond⟩
      constructor
      · intro s h
        simp only [scanDigits] at h
        split at h
        · rename_i h6
          obtain rfl : digitsOf t = s := Sum.inr.inj h
          exact ⟨allDigits_digitsOf t, h6⟩
        · split at h
          · rename_i hgt
            exact ((ih (some (digitsOf t)) (hnew (by omega))).1 s) h
          · exact ((ih best hbest).1 s) h
      · intro b h
        simp only [scanDigits] at h
        split at h
        · exact absurd h (by simp)
        · split at h
          · rename_i hgt
            exact ((ih (some (digitsOf t)) (hnew (by omega))).2 b) h
          · exact ((ih best hbest).2 b) h

theorem enhancedStep_spec (enhanced : Option (List (Option String)))
    (best : Option String)
    (hbest : best = none ∨ ∃ x, best = some x ∧ allDigits x = true ∧ 1 ≤ x.data.length) :
    (∀ s, enhancedStep enhanced best = .inr s → allDigits s = true ∧ s.data.length = 6) ∧
      (∀ b, enhancedStep enhanced best = .inl b →
        b = none ∨ ∃ x, b = some x ∧ allDigits x = true ∧ 1 ≤ x.data.length) := by
  cases best with
  | none =>
    constructor
    · intro s h
      simp [enhancedStep] at h
    · intro b h
      simp only [enhancedStep, Sum.inl.injEq] at h
      exact Or.inl h.symm
  | some x =>
    by_cases hlen : x.data.length < 6
    · cases enhanced with
      | none =>
        have hdef : enhancedStep none (some x) = .inl (some x) := by
          simp only [enhancedStep]
          split <;> rfl
        constructor
        · intro s h
          rw [hdef] at h
          exact absurd h (by simp)
        · intro b h
          rw [hdef] at h
          obtain rfl : some x = b := Sum.inl.inj h
          exact hbest
      | some rs =>
        have hdef : enhancedStep (some rs) (some x) = scanDigits rs (some x) := by
          simp only [enhancedStep]
          rw [if_pos hlen]
        constructor
        · intro s h
          rw [hdef] at h
          exact ((scanDigits_spec rs (some x) hbest).1 s) h
        · intro b h
          rw [hdef] at h
          exact ((scanDigits_spec rs (some x) hbest).2 b) h
    · have hdef : enhancedStep enhanced (some x) = .inl (some x) := by
        cases enhanced <;> simp only [enhancedStep] <;> rw [if_neg hlen]
      constructor
      · intro s h
        rw [hdef] at h
        exact absurd h (by simp)
      · intro b h
        rw [hdef] at h
        obtain rfl : some x = b := Sum.inl.inj h
        exact hbest

theorem finishBest_spec (finalRetry : Option String) (best : Option String)
    (hbest : best = none ∨ ∃ x, best = some x ∧ allDigits x = true ∧ 1 ≤ x.data.length)
    (s : String) (h : finishBest finalRetry best = .ok s) :
    allDigits s = true ∧ 6 ≤ s.data.length := by
  cases best with
  | none => simp [finishBest] at h
  | some b =>
    have hdig : allDigits b = true := by
      rcases hbest with h0 | ⟨x, hx, hd, -⟩
      · exact absurd h0 (by simp)
      · obtain rfl : b = x := Option.some.inj hx
        exact hd
    have htake : ∀ y : String, allDigits y = true →
        allDigits (strTake (padStart6 y) 6) = true ∧
          6 ≤ (strTake (padStart6 y) 6).data.length := by
      intro y hy
      refine ⟨allDigits_strTake _ 6 (allDigits_padStart6 y hy), ?_⟩
      show 6 ≤ ((padStart6 y).data.take 6).length
      rw [List.length_take]
      have := padStart6_length y
      omega
    simp only [finishBest] at h
    split at h
    · rename_i h5
      obtain rfl : "0" ++ b = s := Except.ok.inj h
      constructor
      · rw [allDigits, List.all_eq_true]
        intro c hc
        rcases List.mem_cons.mp (by simpa [String.data_append] using hc) with rfl | hc'
        · decide
        · rw [allDigits, List.all_eq_true] at hdig
          exact hdig c hc'
      · show 6 ≤ (("0" : String).data ++ b.data).length
        rw [List.length_append]
        simp only [show (("0" : String).data).length = 1 from rfl]
        omega
    · split at h
      · rename_i h4
        obtain rfl : padStart6 b = s := Except.ok.inj h
        exact ⟨allDigits_padStart6 b hdig, padStart6_length b⟩
      · cases finalRetry with
        | none =>
          simp only [finalRetryStep] at h
          obtain rfl : strTake (padStart6 b) 6 = s := Except.ok.inj h
          exact htake b hdig
        | some t =>
          simp only [finalRetryStep] at h
          split at h
          · obtain rfl : strTake (padStart6 (digitsOf t)) 6 = s := Except.ok.inj h
            exact htake (digitsOf t) (allDigits_digitsOf t)
          · obtain rfl : strTake (padStart6 b) 6 = s := Except.ok.inj h
            exact htake b hdig

/-- C10 (amended): whenever the browser-strategy solver returns a value,
the value consists only of decimal digits and has length at least six; it
has length exactly six in every return path except the unsliced
`padStart(6, '0')` return of a best OCR read longer than six digits, so
the `Security code must be 6 digits` guard of
`downloadJudgmentWithCaptcha` is reachable from the automated path. -/
theorem solveCaptchaBrowser_digits (firstRun : List (Option String))
    (enhanced : Option (List (Option String))) (finalRetry : Option String)
    (s : String) (h : solveCaptchaBrowser firstRun enhanced finalRetry = .ok s) :
    allDigits s = true ∧ 6 ≤ s.data.length := by
  rcases h1 : scanDigits firstRun none with b0 | s0
  · simp only [solveCaptchaBrowser, h1] at h
    rcases h2 : enhancedStep enhanced b0 with best | s1
    · simp only [h2] at h
      have hb0 := (scanDigits_spec firstRun none (Or.inl rfl)).2 b0 h1
      have hbest := (enhancedStep_spec enhanced b0 hb0).2 best h2
      exact finishBest_spec finalRetry best hbest s h
    · simp only [h2] at h
      obtain rfl : s1 = s := Except.ok.inj h
      have hb0 := (scanDigits_spec firstRun none (Or.inl rfl)).2 b0 h1
      obtain ⟨hd, hl⟩ := (enhancedStep_spec enhanced b0 hb0).1 s1 h2
      exact ⟨hd, by omega⟩
  · simp only [solveCaptchaBrowser, h1] at h
    obtain rfl : s0 = s := Except.ok.inj h
    obtain ⟨hd, hl⟩ := (scanDigits_spec firstRun none (Or.inl rfl)).1 s0 h1
    exact ⟨hd, by omega⟩

theorem solveCaptchaBrowser_digits_witness :
    allDigits "123456" = true ∧ 6 ≤ ("123456" : String).data.length :=
  solveCaptchaBrowser_digits [some "12 34 56"] none none "123456" rfl

/-- C10 (counterexample to the claim as stated): when the best OCR read of
the first loop has seven digits (and never exactly six), the solver
returns the seven-digit string unpadded and untruncated, which fails the
six-digit guard of `downloadJudgmentWithCaptcha` — so the `Security code
must be 6 digits` rejection is reachable from `downloadJudgmentAuto`. -/
theorem solveCaptchaBrowser_overlength_counterexample :
    solveCaptchaBrowser [some "1234567", none, none] none none = .ok "1234567" ∧
      isSixDigitCode "1234567" = false := ⟨rfl, by decide⟩

end Hcourt
